import Mathlib

/-!
Verification of the Pixel chatbot front-end logic: the message renderer
(fenced code-block splitter of `MessageRenderer` in `PixelChatBox`), the
text utilities `truncate` and `stripHtml`, and the page-context extractor
`buildPageContext` of `usePageContext`.

Strings are modelled as Lean `String` (a packed `List Char`); JavaScript
string indices/lengths are modelled as character counts, which agrees with
the source for all inputs in the basic multilingual plane.
-/

/-! ### Message renderer

The source scans the message content with the global regex
`/```(\w+)?\n([\s\S]*?)```/g`, emitting a line-split text block for the gap
before each match, a code snippet for each match (language defaulting to
`javascript`), and a final line-split text block for the trailing gap.
The emitted React nodes are modelled as `DisplaySegment`s.
-/

/-- A display segment produced for one chat message: a run of plain-text
lines (the source splits the run on `'\n'` and emits a `<br />` after each
line) or a code snippet with its language tag. -/
inductive DisplaySegment where
  | text (lines : List String)
  | code (language : String) (source : String)
deriving DecidableEq, Repr

/-- JavaScript regex `\w` (no unicode flag): ASCII letters, digits, `_`. -/
def isWordChar (c : Char) : Bool :=
  c.isAlpha || c.isDigit || c = '_'

/-- Locate the nearest closing triple backtick, as the non-greedy
`([\s\S]*?)```` does: returns the body before the closing fence and the
remainder after it. `none` when no closing fence exists. -/
def splitFence : List Char → Option (List Char × List Char)
  | [] => none
  | c :: rest =>
    if c = '`' ∧ rest.take 2 = ['`', '`'] then some ([], rest.drop 2)
    else (splitFence rest).map fun p => (c :: p.1, p.2)

/-- The captured value of the optional greedy group `(\w+)?` when `w` is
the maximal word-character run after the opening fence: absent for an
empty run. -/
def tagOf (w : List Char) : Option (List Char) :=
  if w.isEmpty then none else some w

/-- After the opening fence and its maximal word-character run `w`, the
match continues only when the next character is a newline; `ds` is the
input after the run. -/
def matchTagNl (w : List Char) : List Char → Option (Option (List Char) × List Char × List Char)
  | c :: rest2 =>
    if c = '\n' then (splitFence rest2).map fun p => (tagOf w, p.1, p.2)
    else none
  | [] => none

/-- Attempt the regex `/```(\w+)?\n([\s\S]*?)```/` anchored at the start of
`cs`: on success returns the optional language tag, the body, and the
remainder after the closing fence. The optional greedy group `(\w+)?`
succeeds only when the maximal word-character run after the opening fence
is followed directly by a newline. -/
def matchAt (cs : List Char) : Option (Option (List Char) × List Char × List Char) :=
  match cs with
  | c1 :: c2 :: c3 :: rest =>
    if c1 = '`' ∧ c2 = '`' ∧ c3 = '`' then
      matchTagNl (rest.takeWhile isWordChar) (rest.dropWhile isWordChar)
    else none
  | _ => none

/-- One step of `codeBlockRegex.exec`: the leftmost full match in `cs`.
Returns the text before the match, the optional language tag, the body and
the remainder after the match. -/
def findFence : List Char → Option (List Char × Option (List Char) × List Char × List Char)
  | [] => none
  | c :: rest =>
    match matchAt (c :: rest) with
    | some (tag, body, after) => some ([], tag, body, after)
    | none => (findFence rest).map fun q => (c :: q.1, q.2)

/-- JavaScript `text.split('\n')` on a character list. -/
def splitNl : List Char → List (List Char)
  | [] => [[]]
  | c :: rest =>
    if c = '\n' then [] :: splitNl rest
    else
      match splitNl rest with
      | [] => [[c]]
      | l :: ls => (c :: l) :: ls

/-- The text block the source pushes for a gap between matches. -/
def textSeg (cs : List Char) : DisplaySegment :=
  .text ((splitNl cs).map String.mk)

/-- The code snippet the source pushes for a match:
`lang = match[1] || 'javascript'`, `source = match[2]`. -/
def codeSeg (tag : Option (List Char)) (body : List Char) : DisplaySegment :=
  .code (match tag with | some w => String.mk w | none => "javascript") (String.mk body)

/-- The renderer loop of `MessageRenderer`, fuelled for structural
recursion; `fuel` strictly above the remaining length is always enough,
since every match consumes at least seven characters. -/
def renderLoop : Nat → List Char → List DisplaySegment
  | 0, cs => if cs.isEmpty then [] else [textSeg cs]
  | fuel + 1, cs =>
    match findFence cs with
    | some (pre, tag, body, after) =>
      (if pre.isEmpty then [] else [textSeg pre])
        ++ codeSeg tag body :: renderLoop fuel after
    | none => if cs.isEmpty then [] else [textSeg cs]

/-- `MessageRenderer`: splits a message content into display segments. -/
def renderMessage (content : String) : List DisplaySegment :=
  renderLoop (content.toList.length + 1) content.toList

/-- Join lines with a newline separator (inverse of `splitNl`). -/
def joinLines : List (List Char) → List Char
  | [] => []
  | [l] => l
  | l :: ls => l ++ '\n' :: joinLines ls

/-- The characters a segment stands for, per the spec reconstruction rule:
text lines joined by newline, code wrapped in its fence markers with its
language tag. -/
def segChars : DisplaySegment → List Char
  | .text lines => joinLines (lines.map String.toList)
  | .code lang src =>
      '`' :: '`' :: '`' :: (lang.toList ++ '\n' :: (src.toList ++ ['`', '`', '`']))

/-- Concatenate the reconstructions of a segment list. -/
def reconstructL : List DisplaySegment → List Char
  | [] => []
  | s :: rest => segChars s ++ reconstructL rest

/-- Reconstruction of a rendered message, as a string. -/
def reconstruct (segs : List DisplaySegment) : String :=
  String.mk (reconstructL segs)

/-- Fuelled check that every code fence matched in `cs` carries an explicit
language tag. -/
def allTaggedLoop : Nat → List Char → Bool
  | 0, _ => true
  | fuel + 1, cs =>
    match findFence cs with
    | some (_, some _, _, after) => allTaggedLoop fuel after
    | some (_, none, _, _) => false
    | none => true

/-- Every code fence in `content` carries an explicit language tag. -/
def allTagged (content : String) : Bool :=
  allTaggedLoop (content.toList.length + 1) content.toList

/-- Fuelled rewriting of `cs` that inserts the default tag `javascript`
into every matched fence whose tag is absent, leaving everything else
untouched. -/
def insertDefaultsLoop : Nat → List Char → List Char
  | 0, cs => cs
  | fuel + 1, cs =>
    match findFence cs with
    | some (pre, tag, body, after) =>
      pre ++ '`' :: '`' :: '`' ::
        ((tag.getD "javascript".toList) ++ '\n' ::
          (body ++ '`' :: '`' :: '`' :: insertDefaultsLoop fuel after))
    | none => cs

/-- `content` with the default tag `javascript` inserted into every
untagged code fence. -/
def insertDefaults (content : String) : String :=
  String.mk (insertDefaultsLoop (content.toList.length + 1) content.toList)

/-! ### Text utilities of `usePageContext` -/

/-- `truncate(text, maxLen)`: keep strings within the length limit; on
overflow keep the first `maxLen` characters and append the literal
`'\n... [truncated]'`. The source default for `maxLen` is 3000; call
sites below pass their limits explicitly. -/
def truncate (text : String) (maxLen : Nat) : String :=
  if text.length ≤ maxLen then text
  else String.mk (text.toList.take maxLen) ++ "\n... [truncated]"

/-- Skip up to and including the first `'>'`, as one match of the regex
`<[^>]*>` does after its opening `'<'`; `none` when no `'>'` follows. -/
def dropThroughGt : List Char → Option (List Char)
  | [] => none
  | c :: rest => if c = '>' then some rest else dropThroughGt rest

/-- The global replace `html.replace(/<[^>]*>/g, '')`, fuelled: each
`'<'` with a following `'>'` starts a match reaching to the nearest
`'>'`, which is deleted; all other characters are kept. -/
def removeTagsLoop : Nat → List Char → List Char
  | 0, cs => cs
  | _ + 1, [] => []
  | fuel + 1, c :: rest =>
    if c = '<' then
      match dropThroughGt rest with
      | some after => removeTagsLoop fuel after
      | none => c :: removeTagsLoop fuel rest
    else c :: removeTagsLoop fuel rest

/-- `html.replace(/<[^>]*>/g, '')` — every span from a `'<'` to the
nearest following `'>'` is removed. -/
def removeTags (cs : List Char) : List Char :=
  removeTagsLoop cs.length cs

/-- The character set trimmed by JavaScript `String.prototype.trim`
(ECMAScript WhiteSpace and LineTerminator). -/
def jsWhitespace : List Char :=
  [' ', '\t', '\n', '\r', '\x0b', '\x0c', '\u00A0', '\u1680',
    '\u2000', '\u2001', '\u2002', '\u2003', '\u2004', '\u2005',
    '\u2006', '\u2007', '\u2008', '\u2009', '\u200A', '\u2028',
    '\u2029', '\u202F', '\u205F', '\u3000', '\uFEFF']

def isJsWhitespace (c : Char) : Bool :=
  jsWhitespace.contains c

/-- JavaScript `s.trim()`. -/
def jsTrim (cs : List Char) : List Char :=
  ((cs.dropWhile isJsWhitespace).reverse.dropWhile isJsWhitespace).reverse

/-- `stripHtml`: remove all `<...>` tag spans, then trim. -/
def stripHtml (html : String) : String :=
  String.mk (jsTrim (removeTags html.toList))

/-! ### Application-state view for `buildPageContext`

Only the fields the extractor reads are modelled; JavaScript `null` and
`undefined` become `Option`, record lookups become functions into
`Option`, and JavaScript string truthiness (`if (s)`) is non-emptiness. -/

structure EditorTabState where
  value : String
deriving DecidableEq

/-- One entry of the playground output list: the source renders an entry
as its `value` when `type === 'result'`, its `errors` text when
`type === 'errors'`, and its string form otherwise. -/
inductive PgOutput where
  | result (value : String)
  | errors (errors : String)
  | other (str : String)
deriving DecidableEq

def renderOutput : PgOutput → String
  | .result v => v
  | .errors e => e
  | .other s => s

structure GQuestion where
  content : Option String
  answer : Option String
deriving DecidableEq

structure GGrade where
  comments : Option String
deriving DecidableEq

structure GStudent where
  name : String
  username : String
deriving DecidableEq

structure GAnswer where
  question : Option GQuestion
  grade : Option GGrade
  student : Option GStudent
deriving DecidableEq

structure Grading where
  answers : Option (List GAnswer)
deriving DecidableEq

structure AQuestion where
  content : Option String
  type : String
  answer : Option String
deriving DecidableEq

structure Assessment where
  title : Option String
  longSummary : Option String
  questions : Option (List AQuestion)
deriving DecidableEq

/-- The slices of the application store read by `buildPageContext`. -/
structure StoreSlices where
  playgroundEditorTabs : List EditorTabState
  playgroundActiveTab : Option Nat
  playgroundOutput : List PgOutput
  playgroundReplValue : String
  assessmentEditorTabs : List EditorTabState
  assessmentActiveTab : Option Nat
  currentAssessmentId : Option Nat
  currentAssessmentQuestion : Option Nat
  gradingEditorTabs : List EditorTabState
  gradingActiveTab : Option Nat
  currentSubmissionId : Option Nat
  currentGradingQuestion : Option Nat
  assessments : Nat → Option Assessment
  gradings : Nat → Option Grading

structure PageContextResult where
  pageType : String
  pageContext : String
deriving DecidableEq

/-- JavaScript `Array.prototype.join(sep)`. -/
def joinSep (sep : String) : List String → String
  | [] => ""
  | [s] => s
  | s :: rest => s ++ sep ++ joinSep sep rest

/-- JavaScript truthiness of an optional string: present and nonempty. -/
def optStrTruthy : Option String → Bool
  | some s => !s.isEmpty
  | none => false

/-- JavaScript `s.startsWith(p)`. -/
def strStartsWith (s p : String) : Bool :=
  p.toList.isPrefixOf s.toList

/-- The fallback of `getEditorCode`: all tab values concatenated, each
under a `// Tab N` header, blank-line separated; `undefined` when the
result is the empty string. -/
def fallbackCode (editorTabs : List EditorTabState) : Option String :=
  if (joinSep "\n\n" (editorTabs.enum.map fun p =>
      "// Tab " ++ toString (p.1 + 1) ++ "\n" ++ p.2.value)).isEmpty then none
  else some (joinSep "\n\n" (editorTabs.enum.map fun p =>
    "// Tab " ++ toString (p.1 + 1) ++ "\n" ++ p.2.value))

/-- `getEditorCode`: the active tab value when the active index points at
an existing tab, otherwise the fallback concatenation; `undefined` when
there are no tabs. -/
def getEditorCode (editorTabs : List EditorTabState) (activeTab : Option Nat) : Option String :=
  if editorTabs.isEmpty then none
  else
    match activeTab with
    | some i =>
      match editorTabs[i]? with
      | some tab => some tab.value
      | none => fallbackCode editorTabs
    | none => fallbackCode editorTabs

/-- Strip a literal character-list prefix, returning the remainder. -/
def stripPrefixChars : List Char → List Char → Option (List Char)
  | [], cs => some cs
  | p :: ps, c :: cs => if p = c then stripPrefixChars ps cs else none
  | _ :: _, [] => none

/-- JavaScript line terminators, which `.` in a regex does not match. -/
def notLineTerm (c : Char) : Bool :=
  !(['\n', '\r', '\u2028', '\u2029'].contains c)

/-- `pathname.match(/^\/courses\/(\d+)\/(.*)/)`: the numeric course id and
the sub-path (capped at the first line terminator, as `.` is). -/
def coursesMatch (cs : List Char) : Option (List Char × List Char) :=
  match stripPrefixChars "/courses/".toList cs with
  | some rest =>
    if (rest.takeWhile Char.isDigit).isEmpty then none
    else
      match rest.dropWhile Char.isDigit with
      | '/' :: tail => some (rest.takeWhile Char.isDigit, tail.takeWhile notLineTerm)
      | _ => none
  | none => none

/-- The playground branch: description, route, then — each only when its
guard is truthy — the editor code fenced as javascript, the REPL input,
and the last ten output entries joined by newline. -/
def playgroundBranch (pathname : String) (store : StoreSlices) : PageContextResult :=
  ⟨"playground",
    joinSep "\n"
      (["The user is currently on the Source Academy Playground — an interactive code editor for the Source language (a subset of JavaScript).",
        "Route: " ++ pathname]
      ++ (if optStrTruthy (getEditorCode store.playgroundEditorTabs store.playgroundActiveTab) then
            ["\nThe user\x27s current code in the editor:\n```javascript\n" ++
              truncate ((getEditorCode store.playgroundEditorTabs store.playgroundActiveTab).getD "") 3000 ++
              "\n```"]
          else [])
      ++ (if !store.playgroundReplValue.isEmpty then
            ["\nThe user\x27s current REPL input: " ++ store.playgroundReplValue]
          else [])
      ++ (if store.playgroundOutput.length > 0 then
            ["\nRecent program output:\n" ++
              truncate (joinSep "\n"
                ((store.playgroundOutput.drop (store.playgroundOutput.length - 10)).map
                  renderOutput)) 1000]
          else []))⟩

/-- The per-answer pieces of the grading branch: question content
(stripped, truncated), submitted answer, grader comments, student line —
each under its source guard. -/
def gradingQParts (gq : GAnswer) : List String :=
  (if optStrTruthy (gq.question.bind GQuestion.content) then
     ["\nQuestion being graded:\n" ++
       truncate (stripHtml ((gq.question.bind GQuestion.content).getD "")) 1500]
   else [])
  ++ (match gq.question.bind GQuestion.answer with
      | some a =>
        ["\nStudent\x27s submitted answer:\n```javascript\n" ++ truncate a 3000 ++ "\n```"]
      | none => [])
  ++ (if optStrTruthy (gq.grade.bind GGrade.comments) then
        ["\nGrader comments so far: " ++ (gq.grade.bind GGrade.comments).getD ""]
      else [])
  ++ (match gq.student with
      | some st => ["\nStudent: " ++ st.name ++ " (" ++ st.username ++ ")"]
      | none => [])

/-- The submission-dependent part of the grading branch: present only when
a submission id is selected, resolvable in the gradings lookup, its
answers list present, a question index selected, and that index in range. -/
def gradingSubmissionParts (store : StoreSlices) : List String :=
  match store.currentSubmissionId with
  | none => []
  | some sid =>
    match store.gradings sid with
    | none => []
    | some grading =>
      match grading.answers with
      | none => []
      | some answers =>
        match store.currentGradingQuestion with
        | none => []
        | some qIdx =>
          match answers[qIdx]? with
          | some gq => gradingQParts gq
          | none => []

/-- The grading branch of `buildPageContext`. -/
def gradingBranch (pathname : String) (store : StoreSlices) : PageContextResult :=
  ⟨"grading",
    joinSep "\n"
      (["The user is on the Grading page — a staff view for reviewing student submissions.",
        "Route: " ++ pathname]
      ++ gradingSubmissionParts store
      ++ (if optStrTruthy (getEditorCode store.gradingEditorTabs store.gradingActiveTab) then
            ["\nCode currently visible in the grading editor:\n```javascript\n" ++
              truncate ((getEditorCode store.gradingEditorTabs store.gradingActiveTab).getD "") 3000 ++
              "\n```"]
          else []))⟩

/-- The assessment-dependent part of the assessment branch: title,
stripped summary, current question content and — for programming
questions with an answer — the answer code, each under its source guard. -/
def assessmentInfoParts (store : StoreSlices) : List String :=
  match store.currentAssessmentId with
  | none => []
  | some aid =>
    match store.assessments aid with
    | none => []
    | some assessment =>
      (if optStrTruthy assessment.title then
         ["\nAssessment title: " ++ assessment.title.getD ""]
       else [])
      ++ (if optStrTruthy assessment.longSummary then
            ["\nAssessment summary: " ++
              truncate (stripHtml (assessment.longSummary.getD "")) 800]
          else [])
      ++ (match store.currentAssessmentQuestion with
          | none => []
          | some qi =>
            match assessment.questions.bind fun qs => qs[qi]? with
            | none => []
            | some question =>
              (if optStrTruthy question.content then
                 ["\nCurrent question (Q" ++ toString (qi + 1) ++ "):\n" ++
                   truncate (stripHtml (question.content.getD "")) 1500]
               else [])
              ++ (if question.type = "programming" then
                    match question.answer with
                    | some a =>
                      ["\nStudent\x27s current answer code:\n```javascript\n" ++
                        truncate a 3000 ++ "\n```"]
                    | none => []
                  else []))

/-- The assessment (catch-all course) branch of `buildPageContext`. -/
def assessmentBranch (pathname : String) (store : StoreSlices) : PageContextResult :=
  ⟨"assessment",
    joinSep "\n"
      (["The user is on an assessment page (mission, quest, path, or other assignment type).",
        "Route: " ++ pathname]
      ++ assessmentInfoParts store
      ++ (if optStrTruthy (getEditorCode store.assessmentEditorTabs store.assessmentActiveTab) then
            ["\nCode currently in the assessment editor:\n```javascript\n" ++
              truncate ((getEditorCode store.assessmentEditorTabs store.assessmentActiveTab).getD "") 3000 ++
              "\n```"]
          else []))⟩

/-- The sub-dispatch on the course sub-path, in source order. -/
def courseBranch (pathname : String) (subPath : String) (store : StoreSlices) : PageContextResult :=
  if strStartsWith subPath "grading" then gradingBranch pathname store
  else if strStartsWith subPath "groundcontrol" then
    ⟨"groundcontrol", "The user is on Ground Control — a staff management page for assessments.\nRoute: " ++ pathname⟩
  else if strStartsWith subPath "adminpanel" then
    ⟨"adminpanel", "The user is on the Admin Panel — course administration settings.\nRoute: " ++ pathname⟩
  else if strStartsWith subPath "achievements" then
    ⟨"achievements", "The user is on the Achievements page — gamification and goals tracking.\nRoute: " ++ pathname⟩
  else if strStartsWith subPath "sourcecast" then
    ⟨"sourcecast", "The user is on the Sourcecast page — recorded coding sessions.\nRoute: " ++ pathname⟩
  else if strStartsWith subPath "game" then
    ⟨"game", "The user is on the Game page — the Source Academy story game.\nRoute: " ++ pathname⟩
  else if strStartsWith subPath "stories" then
    ⟨"stories", "The user is on the Stories page — story management for the game.\nRoute: " ++ pathname⟩
  else assessmentBranch pathname store

/-- `buildPageContext`: the top-level dispatch on the pathname, in source
order — playground, course routes, mission control, contributors,
welcome, then the general fallback. -/
def buildPageContext (pathname : String) (store : StoreSlices) : PageContextResult :=
  if strStartsWith pathname "/playground" then playgroundBranch pathname store
  else
    match coursesMatch pathname.toList with
    | some m => courseBranch pathname (String.mk m.2) store
    | none =>
      if strStartsWith pathname "/mission-control" then
        ⟨"mission-control", "The user is on Mission Control — assessment management interface.\nRoute: " ++ pathname⟩
      else if strStartsWith pathname "/contributors" then
        ⟨"contributors", "The user is on the Contributors page — listing Source Academy contributors.\nRoute: " ++ pathname⟩
      else if strStartsWith pathname "/welcome" then
        ⟨"welcome", "The user is on the Welcome page — initial setup after login.\nRoute: " ++ pathname⟩
      else ⟨"general", "The user is browsing Source Academy.\nRoute: " ++ pathname⟩

/-- A store snapshot with everything absent or empty. -/
def emptyStore : StoreSlices :=
  ⟨[], none, [], "", [], none, none, none, [], none, none, none, fun _ => none, fun _ => none⟩

/-- A store whose playground workspace has one active tab holding the
empty string. -/
def oneEmptyTabStore : StoreSlices :=
  { emptyStore with playgroundEditorTabs := [⟨""⟩], playgroundActiveTab := some 0 }

/-! ### Renderer lemmas: the scan decomposes the input -/

/-- `splitFence` splits its input exactly at the nearest closing fence. -/
theorem splitFence_eq : ∀ (cs b r : List Char), splitFence cs = some (b, r) →
    cs = b ++ '`' :: '`' :: '`' :: r := by
  intro cs
  induction cs with
  | nil => intro b r h; simp [splitFence] at h
  | cons c rest ih =>
    intro b r h
    rw [splitFence] at h
    split_ifs at h with hc
    · obtain ⟨hc1, htake⟩ := hc
      simp only [Option.some.injEq, Prod.mk.injEq] at h
      obtain ⟨hb, hr⟩ := h
      subst hb; subst hr; subst hc1
      have hrest : rest = '`' :: '`' :: rest.drop 2 := by
        rcases rest with _ | ⟨a, _ | ⟨b2, t⟩⟩ <;> simp_all
      simp only [List.nil_append]
      exact congrArg ('`' :: ·) hrest
    · rw [Option.map_eq_some'] at h
      obtain ⟨⟨b', r'⟩, hsf, heq⟩ := h
      simp only [Prod.mk.injEq] at heq
      obtain ⟨hb, hr⟩ := heq
      subst hb; subst hr
      simpa using congrArg (c :: ·) (ih b' r' hsf)

/-- The tag captured by `tagOf` always stands for the run `w` itself. -/
theorem tagOf_getD (w : List Char) : (tagOf w).getD [] = w := by
  cases w <;> simp [tagOf]

/-- `matchTagNl` succeeds only on a newline followed by a body and a
closing fence, and captures `tagOf w`. -/
theorem matchTagNl_eq (w ds : List Char) (tag : Option (List Char)) (body after : List Char)
    (h : matchTagNl w ds = some (tag, body, after)) :
    tag = tagOf w ∧ ds = '\n' :: (body ++ '`' :: '`' :: '`' :: after) := by
  cases ds with
  | nil => simp [matchTagNl] at h
  | cons c rest2 =>
    simp only [matchTagNl] at h
    split_ifs at h with hnl
    · subst hnl
      rw [Option.map_eq_some'] at h
      obtain ⟨⟨b, r⟩, hsf, heq⟩ := h
      simp only [Prod.mk.injEq] at heq
      obtain ⟨htag, hb, hr⟩ := heq
      subst hb; subst hr
      exact ⟨htag.symm, by rw [splitFence_eq rest2 b r hsf]⟩

/-- `matchAt` succeeds only by consuming an opening fence, the optional
word-character tag, a newline, the body, and a closing fence. -/
theorem matchAt_eq (cs : List Char) (tag : Option (List Char)) (body after : List Char)
    (h : matchAt cs = some (tag, body, after)) :
    cs = '`' :: '`' :: '`' :: (tag.getD [] ++ '\n' :: (body ++ '`' :: '`' :: '`' :: after)) := by
  unfold matchAt at h
  split at h
  next c1 c2 c3 rest =>
    split_ifs at h with hticks
    · obtain ⟨h1, h2, h3⟩ := hticks
      subst h1; subst h2; subst h3
      obtain ⟨htag, hds⟩ := matchTagNl_eq _ _ _ _ _ h
      subst htag
      have hrest : rest = rest.takeWhile isWordChar ++ '\n' :: (body ++ '`' :: '`' :: '`' :: after) := by
        conv_lhs => rw [← @List.takeWhile_append_dropWhile _ isWordChar rest]
        rw [hds]
      rw [tagOf_getD]
      conv_lhs => rw [hrest]
  next => exact absurd h (by simp)

/-- `findFence` decomposes its input as gap text, fence, tag, newline,
body, closing fence and remainder. -/
theorem findFence_eq : ∀ (cs pre : List Char) (tag : Option (List Char)) (body after : List Char),
    findFence cs = some (pre, tag, body, after) →
    cs = pre ++ '`' :: '`' :: '`' :: (tag.getD [] ++ '\n' :: (body ++ '`' :: '`' :: '`' :: after)) := by
  intro cs
  induction cs with
  | nil => intro pre tag body after h; simp [findFence] at h
  | cons c rest ih =>
    intro pre tag body after h
    rw [findFence] at h
    cases hm : matchAt (c :: rest) with
    | some q =>
      obtain ⟨tag', body', after'⟩ := q
      rw [hm] at h
      simp only [Option.some.injEq, Prod.mk.injEq] at h
      obtain ⟨hpre, htag, hbody, hafter⟩ := h
      subst hpre; subst htag; subst hbody; subst hafter
      simpa using matchAt_eq _ _ _ _ hm
    | none =>
      rw [hm] at h
      rw [Option.map_eq_some'] at h
      obtain ⟨⟨pre', rest'⟩, hff, heq⟩ := h
      simp only [Prod.mk.injEq] at heq
      obtain ⟨hpre, hrest⟩ := heq
      subst hpre; subst hrest
      simpa using congrArg (c :: ·) (ih pre' _ _ _ hff)

/-- A successful match consumes at least seven characters. -/
theorem findFence_length (cs pre : List Char) (tag : Option (List Char)) (body after : List Char)
    (h : findFence cs = some (pre, tag, body, after)) :
    after.length + 7 ≤ cs.length := by
  rw [findFence_eq cs pre tag body after h]
  simp [List.length_append]
  omega

/-! ### Reconstruction lemmas -/

/-- `splitNl` never returns an empty list of lines. -/
theorem splitNl_ne_nil (cs : List Char) : splitNl cs ≠ [] := by
  induction cs with
  | nil => simp [splitNl]
  | cons c rest ih =>
    rw [splitNl]
    split_ifs
    · simp
    · cases h : splitNl rest <;> simp

/-- Joining the split lines restores the original characters. -/
theorem joinLines_splitNl (cs : List Char) : joinLines (splitNl cs) = cs := by
  induction cs with
  | nil => rfl
  | cons c rest ih =>
    rw [splitNl]
    split_ifs with hc
    · subst hc
      rcases h : splitNl rest with _ | ⟨l, ls⟩
      · exact absurd h (splitNl_ne_nil rest)
      · rw [h] at ih
        cases ls with
        | nil => simp [joinLines, ← ih]
        | cons l2 ls2 => simp [joinLines, ← ih]
    · rcases h : splitNl rest with _ | ⟨l, ls⟩
      · exact absurd h (splitNl_ne_nil rest)
      · rw [h] at ih
        cases ls with
        | nil => simp [joinLines, ← ih]
        | cons l2 ls2 => simp [joinLines, ← ih]

/-- A text block reconstructs exactly the gap characters it was built from. -/
theorem segChars_textSeg (cs : List Char) : segChars (textSeg cs) = cs := by
  have hcomp : List.map String.toList ((splitNl cs).map String.mk) = splitNl cs := by
    rw [List.map_map]
    exact List.map_id (splitNl cs)
  rw [textSeg, segChars, hcomp, joinLines_splitNl]

/-- A code block reconstructs its fence, tag (defaulted) and body. -/
theorem segChars_codeSeg (tag : Option (List Char)) (body : List Char) :
    segChars (codeSeg tag body) =
      '`' :: '`' :: '`' :: (tag.getD "javascript".toList ++ '\n' :: (body ++ ['`', '`', '`'])) := by
  cases tag <;> rfl

/-- Reconstruction distributes over segment-list concatenation. -/
theorem reconstructL_append (a b : List DisplaySegment) :
    reconstructL (a ++ b) = reconstructL a ++ reconstructL b := by
  induction a with
  | nil => rfl
  | cons s rest ih => simp [reconstructL, ih]

/-- The renderer loop reconstructs to the input with default language tags
inserted at untagged fences. -/
theorem renderLoop_reconstruct : ∀ (fuel : Nat) (cs : List Char), cs.length < fuel →
    reconstructL (renderLoop fuel cs) = insertDefaultsLoop fuel cs := by
  intro fuel
  induction fuel with
  | zero => intro cs h; exact absurd h (Nat.not_lt_zero _)
  | succ fuel ih =>
    intro cs hlen
    rw [renderLoop, insertDefaultsLoop]
    cases hf : findFence cs with
    | none =>
      by_cases hcs : cs.isEmpty
      · rw [List.isEmpty_iff] at hcs
        subst hcs
        rfl
      · simp only [hcs, if_false]
        simp [reconstructL, segChars_textSeg]
    | some q =>
      obtain ⟨pre, tag, body, after⟩ := q
      have hlt : after.length < fuel := by
        have := findFence_length cs pre tag body after hf
        omega
      rw [reconstructL_append, reconstructL, ih after hlt, segChars_codeSeg]
      by_cases hpre : pre.isEmpty
      · rw [List.isEmpty_iff] at hpre
        subst hpre
        simp [reconstructL]
      · simp only [hpre, if_false]
        simp [reconstructL, segChars_textSeg]

/-- When every fence carries a tag, inserting defaults is the identity. -/
theorem insertDefaultsLoop_id : ∀ (fuel : Nat) (cs : List Char), cs.length < fuel →
    allTaggedLoop fuel cs = true → insertDefaultsLoop fuel cs = cs := by
  intro fuel
  induction fuel with
  | zero => intro cs h; exact absurd h (Nat.not_lt_zero _)
  | succ fuel ih =>
    intro cs hlen htag
    rw [insertDefaultsLoop]
    rw [allTaggedLoop] at htag
    cases hf : findFence cs with
    | none => rfl
    | some q =>
      obtain ⟨pre, tag, body, after⟩ := q
      rw [hf] at htag
      cases tag with
      | none => simp at htag
      | some w =>
        have hlt : after.length < fuel := by
          have := findFence_length cs pre (some w) body after hf
          omega
        have htag' : allTaggedLoop fuel after = true := htag
        show pre ++ '`' :: '`' :: '`' ::
            ((some w).getD "javascript".toList ++ '\n' ::
              (body ++ '`' :: '`' :: '`' :: insertDefaultsLoop fuel after)) = cs
        rw [ih after hlt htag']
        have hdec := findFence_eq cs pre (some w) body after hf
        simp only [Option.getD_some] at hdec
        simp [hdec]

/-! ### Claim theorems for the message renderer -/

/-- C1: concatenating back the ordered `DisplaySegment`s produced by
`renderMessage` (text lines joined with newline, code wrapped in its fence
markers with its language tag) reproduces the original message content —
exactly when every fence carries an explicit language tag, and in general
up to inserting the default tag `javascript` at untagged fences (the
claim's "modulo the language annotation when absent"). -/
theorem renderMessage_roundtrip (content : String) :
    reconstruct (renderMessage content) = insertDefaults content ∧
    (allTagged content = true → reconstruct (renderMessage content) = content) := by
  have h1 : reconstructL (renderLoop (content.toList.length + 1) content.toList) =
      insertDefaultsLoop (content.toList.length + 1) content.toList :=
    renderLoop_reconstruct _ _ (Nat.lt_succ_self _)
  constructor
  · exact congrArg String.mk h1
  · intro h
    have h2 := insertDefaultsLoop_id (content.toList.length + 1) content.toList
      (Nat.lt_succ_self _) h
    show String.mk (reconstructL (renderLoop (content.toList.length + 1) content.toList)) = content
    rw [h1, h2]
    exact rfl

/-- Witness for `renderMessage_roundtrip` at a concrete tagged content. -/
theorem renderMessage_roundtrip_witness :
    allTagged "a\n```js\nx=1\n```\nb" = true ∧
    reconstruct (renderMessage "a\n```js\nx=1\n```\nb") = "a\n```js\nx=1\n```\nb" :=
  ⟨by decide, (renderMessage_roundtrip "a\n```js\nx=1\n```\nb").2 (by decide)⟩

/-- C3 counterexample: on `"a\n```js\nx=1\n```\nb"` the renderer does not
produce text("a"), code("js","x=1"), text("b"): the regex body capture
includes the newline before the closing fence, and the surrounding gaps
are `"a\n"` and `"\nb"`. -/
theorem renderMessage_example_counterexample :
    renderMessage "a\n```js\nx=1\n```\nb" ≠
      [DisplaySegment.text ["a"], DisplaySegment.code "js" "x=1",
        DisplaySegment.text ["b"]] := by decide

/-- C3 amended: on `"a\n```js\nx=1\n```\nb"` the renderer produces exactly
three segments — text with lines `["a", ""]` (the gap `"a\n"`), code with
language `"js"` and source `"x=1\n"` (the captured body, which includes
the newline preceding the closing fence), and text with lines
`["", "b"]` (the gap `"\nb"`). -/
theorem renderMessage_example :
    renderMessage "a\n```js\nx=1\n```\nb" =
      [DisplaySegment.text ["a", ""], DisplaySegment.code "js" "x=1\n",
        DisplaySegment.text ["", "b"]] := by decide

/-- C7 counterexample: the empty content contains zero code fences yet
renders to zero segments, not to exactly one text segment. -/
theorem renderMessage_empty_counterexample :
    renderMessage "" = [] ∧ (renderMessage "").length ≠ 1 := by decide

/-- C7 amended: for every nonempty content in which the fence scan finds
no match, the renderer returns exactly one text segment whose
reconstruction equals the input (the empty content renders to zero
segments). -/
theorem renderMessage_no_fences (content : String)
    (hne : content ≠ "") (hnf : findFence content.toList = none) :
    renderMessage content = [textSeg content.toList] ∧
    reconstruct (renderMessage content) = content := by
  have hlist : content.toList ≠ [] := by
    intro h
    apply hne
    cases content with
    | mk data =>
      have h' : data = [] := h
      subst h'
      rfl
  have hlist2 : content.data ≠ [] := hlist
  have hseg : renderMessage content = [textSeg content.toList] := by
    rw [renderMessage, renderLoop, hnf]
    simp [hlist, hlist2]
  refine ⟨hseg, ?_⟩
  rw [hseg]
  show String.mk (segChars (textSeg content.toList) ++ reconstructL []) = content
  rw [segChars_textSeg]
  show String.mk (content.toList ++ []) = content
  rw [List.append_nil]
  exact rfl

/-- Witness for `renderMessage_no_fences` at a concrete fence-free content. -/
theorem renderMessage_no_fences_witness :
    renderMessage "hello\nworld" = [textSeg "hello\nworld".toList] ∧
    reconstruct (renderMessage "hello\nworld") = "hello\nworld" :=
  renderMessage_no_fences "hello\nworld" (by decide) (by decide)

/-- C8: for the unterminated fence content `"a\n```js\nx=1"` the scan finds
no complete match, so no code segment is emitted and the whole content
renders as a single text segment (the opening marker kept as plain text). -/
theorem renderMessage_unterminated :
    renderMessage "a\n```js\nx=1" = [DisplaySegment.text ["a", "```js", "x=1"]] := by
  decide

/-- One tag match drops at least the closing `'>'`. -/
theorem dropThroughGt_length : ∀ (cs after : List Char),
    dropThroughGt cs = some after → after.length < cs.length := by
  intro cs
  induction cs with
  | nil => intro after h; simp [dropThroughGt] at h
  | cons c rest ih =>
    intro after h
    rw [dropThroughGt] at h
    split_ifs at h with hc
    · simp only [Option.some.injEq] at h
      subst h
      simp
    · have := ih after h
      simp only [List.length_cons]
      omega

/-- When `t` holds no `'>'`, the match after a `'<'` reaches exactly the
nearest `'>'`: everything up to and including it is dropped. -/
theorem dropThroughGt_append : ∀ (t u : List Char), '>' ∉ t →
    dropThroughGt (t ++ '>' :: u) = some u := by
  intro t
  induction t with
  | nil => intro u _; simp [dropThroughGt]
  | cons c ts ih =>
    intro u h
    simp only [List.mem_cons, not_or] at h
    rw [List.cons_append, dropThroughGt, if_neg (Ne.symm h.1), ih u h.2]

/-- Without any `'>'` there is no tag match to drop. -/
theorem dropThroughGt_none : ∀ (cs : List Char), '>' ∉ cs →
    dropThroughGt cs = none := by
  intro cs
  induction cs with
  | nil => intro _; rfl
  | cons c rest ih =>
    intro h
    simp only [List.mem_cons, not_or] at h
    rw [dropThroughGt, if_neg (Ne.symm h.1), ih h.2]

/-- The tag-removal loop does not depend on the fuel, as long as the fuel
covers the input length. -/
theorem removeTagsLoop_congr : ∀ (f g : Nat) (cs : List Char),
    cs.length ≤ f → cs.length ≤ g → removeTagsLoop f cs = removeTagsLoop g cs := by
  intro f
  induction f with
  | zero =>
    intro g cs hf _
    have hnil : cs = [] := List.length_eq_zero.mp (Nat.le_zero.mp hf)
    subst hnil
    cases g <;> rfl
  | succ f ih =>
    intro g cs hf hg
    cases cs with
    | nil => cases g <;> rfl
    | cons c rest =>
      cases g with
      | zero => simp at hg
      | succ g' =>
        simp only [List.length_cons] at hf hg
        rw [removeTagsLoop, removeTagsLoop]
        by_cases hc : c = '<'
        · rw [if_pos hc, if_pos hc]
          cases hd : dropThroughGt rest with
          | some after =>
            have hlen := dropThroughGt_length rest after hd
            exact ih g' after (by omega) (by omega)
          | none =>
            rw [ih g' rest (by omega) (by omega)]
        · rw [if_neg hc, if_neg hc, ih g' rest (by omega) (by omega)]

/-! ### Claim theorems for the text utilities -/

/-- C2 counterexample: on the over-limit input `"abcd"` with limit 3 the
output is not the first three characters followed by `"... [truncated]"`,
and its length is not `3 + 15`: the appended literal carries a leading
newline. -/
theorem truncate_counterexample :
    truncate "abcd" 3 ≠ "abc... [truncated]" ∧
    (truncate "abcd" 3).length ≠ 3 + ("... [truncated]" : String).length := by
  decide

/-- C2 amended: inputs within the limit pass through unchanged; on inputs
longer than the limit `L` the output is the first `L` characters followed
by the literal `"\n... [truncated]"` (a newline and then the marker), so
its length is `L + 16`. -/
theorem truncate_spec (text : String) (maxLen : Nat) :
    (text.length ≤ maxLen → truncate text maxLen = text) ∧
    (maxLen < text.length →
      truncate text maxLen = String.mk (text.toList.take maxLen) ++ "\n... [truncated]" ∧
      (truncate text maxLen).length = maxLen + 16) := by
  constructor
  · intro h
    rw [truncate, if_pos h]
  · intro h
    have hgt : ¬ text.length ≤ maxLen := by omega
    refine ⟨by rw [truncate, if_neg hgt], ?_⟩
    rw [truncate, if_neg hgt, String.length_append]
    have hlen : text.toList.length = text.length := rfl
    have h1 : (String.mk (text.toList.take maxLen)).length = maxLen := by
      show (text.toList.take maxLen).length = maxLen
      rw [List.length_take]
      omega
    rw [h1]
    rfl

/-- Witness for `truncate_spec`: both branches at concrete inputs. -/
theorem truncate_spec_witness :
    truncate "abc" 5 = "abc" ∧
    truncate "abcd" 3 = String.mk ("abcd".toList.take 3) ++ "\n... [truncated]" :=
  ⟨(truncate_spec "abc" 5).1 (by decide), ((truncate_spec "abcd" 3).2 (by decide)).1⟩

/-- C4 counterexample: the input `" a "` contains no tag span, yet
`stripHtml` does not leave it unchanged — the final `.trim()` removes the
surrounding spaces, altering text outside any tag delimiters. -/
theorem stripHtml_counterexample :
    removeTags " a ".toList = " a ".toList ∧ stripHtml " a " ≠ " a " := by
  decide

/-- C4 amended: `stripHtml` removes every maximal span from `'<'` to the
nearest following `'>'` and then trims leading and trailing whitespace;
characters outside tag spans other than that trimmed whitespace are
unchanged, and a `'<'` with no following `'>'` starts no span and is
kept. The four `removeTags` equations — empty input, kept non-`'<'` head,
deleted span up to the nearest `'>'`, kept unmatched `'<'` — form a
complete recursion scheme, so they determine the tag-removal pass on
every input; `stripHtml` is that pass followed by the trim, and the
claim's example strips to `"Hello World"`. -/
theorem stripHtml_spec :
    stripHtml "<p>Hello <b>World</b></p>" = "Hello World" ∧
    removeTags [] = [] ∧
    (∀ html : String, stripHtml html = String.mk (jsTrim (removeTags html.toList))) ∧
    (∀ (c : Char) (cs : List Char), c ≠ '<' →
      removeTags (c :: cs) = c :: removeTags cs) ∧
    (∀ t u : List Char, '>' ∉ t →
      removeTags ('<' :: (t ++ '>' :: u)) = removeTags u) ∧
    (∀ rest : List Char, '>' ∉ rest →
      removeTags ('<' :: rest) = '<' :: removeTags rest) := by
  refine ⟨by decide, rfl, fun _ => rfl, fun c cs hc => ?_, fun t u h => ?_, fun rest h => ?_⟩
  · show removeTagsLoop (cs.length + 1) (c :: cs) = c :: removeTagsLoop cs.length cs
    rw [removeTagsLoop, if_neg hc]
  · show removeTagsLoop ((t ++ '>' :: u).length + 1) ('<' :: (t ++ '>' :: u)) =
      removeTagsLoop u.length u
    rw [removeTagsLoop, if_pos rfl, dropThroughGt_append t u h]
    show removeTagsLoop (t ++ '>' :: u).length u = removeTagsLoop u.length u
    refine removeTagsLoop_congr _ _ u ?_ (le_refl _)
    simp only [List.length_append, List.length_cons]
    omega
  · show removeTagsLoop (rest.length + 1) ('<' :: rest) = '<' :: removeTagsLoop rest.length rest
    rw [removeTagsLoop, if_pos rfl, dropThroughGt_none rest h]

/-- Witness for `stripHtml_spec`: each hypothesis-bearing equation at a
concrete input — a kept head, a deleted `<p>` span, a kept unmatched
`'<'`. -/
theorem stripHtml_spec_witness :
    removeTags ('a' :: ['b']) = 'a' :: removeTags ['b'] ∧
    removeTags ('<' :: (['p'] ++ '>' :: ['H', 'i'])) = removeTags ['H', 'i'] ∧
    removeTags ('<' :: ['a', 'b']) = '<' :: removeTags ['a', 'b'] :=
  ⟨stripHtml_spec.2.2.2.1 'a' ['b'] (by decide),
   stripHtml_spec.2.2.2.2.1 ['p'] ['H', 'i'] (by decide),
   stripHtml_spec.2.2.2.2.2 ['a', 'b'] (by decide)⟩


/-! ### Claim theorems for the context extractor -/

/-- C5: `buildPageContext` is a total function by construction, and for
every route matching none of the known prefixes — `/playground`, the
`/courses/{id}/...` pattern, `/mission-control`, `/contributors`,
`/welcome` — it returns pageType `"general"` with the generic context,
whatever the state snapshot (missing and partial state being modelled by
the `Option`-valued store fields). -/
theorem buildPageContext_general (pathname : String) (store : StoreSlices)
    (h1 : strStartsWith pathname "/playground" = false)
    (h2 : coursesMatch pathname.toList = none)
    (h3 : strStartsWith pathname "/mission-control" = false)
    (h4 : strStartsWith pathname "/contributors" = false)
    (h5 : strStartsWith pathname "/welcome" = false) :
    buildPageContext pathname store =
      ⟨"general", "The user is browsing Source Academy.\nRoute: " ++ pathname⟩ := by
  have h2' : coursesMatch pathname.data = none := h2
  simp [buildPageContext, h1, h2, h2', h3, h4, h5]

/-- Witness for `buildPageContext_general` at an unknown route. -/
theorem buildPageContext_general_witness :
    buildPageContext "/foo" emptyStore =
      ⟨"general", "The user is browsing Source Academy.\nRoute: /foo"⟩ :=
  buildPageContext_general "/foo" emptyStore (by decide) (by decide) (by decide)
    (by decide) (by decide)

/-- C9: the course dispatch fires only for `/courses/<digits>/<rest>`:
`"/courses/5"` (no slash after the id) and `"/courses/abc/grading"`
(non-numeric id) miss the course pattern and every other known prefix,
so the extractor returns pageType `"general"` for them, for every store. -/
theorem coursesDispatch_shape (store : StoreSlices) :
    coursesMatch "/courses/5".toList = none ∧
    coursesMatch "/courses/abc/grading".toList = none ∧
    buildPageContext "/courses/5" store =
      ⟨"general", "The user is browsing Source Academy.\nRoute: /courses/5"⟩ ∧
    buildPageContext "/courses/abc/grading" store =
      ⟨"general", "The user is browsing Source Academy.\nRoute: /courses/abc/grading"⟩ := by
  refine ⟨by decide, by decide, ?_, ?_⟩ <;> rfl

/-- Witness for `coursesDispatch_shape` at the empty store. -/
theorem coursesDispatch_shape_witness :
    coursesMatch "/courses/5".toList = none ∧
    coursesMatch "/courses/abc/grading".toList = none ∧
    buildPageContext "/courses/5" emptyStore =
      ⟨"general", "The user is browsing Source Academy.\nRoute: /courses/5"⟩ ∧
    buildPageContext "/courses/abc/grading" emptyStore =
      ⟨"general", "The user is browsing Source Academy.\nRoute: /courses/abc/grading"⟩ :=
  coursesDispatch_shape emptyStore

set_option maxRecDepth 8000 in
/-- C6 counterexample: on route `/courses/5/grading` with no submission
selected but code in the grading editor, the pageContext is not only the
fixed description and route line — the grading-editor code block is
appended as well (though indeed no question, answer, comments or student
text appears). -/
theorem grading_context_counterexample :
    buildPageContext "/courses/5/grading"
        { emptyStore with gradingEditorTabs := [⟨"let x = 1;"⟩], gradingActiveTab := some 0 } ≠
      ⟨"grading", "The user is on the Grading page — a staff view for reviewing student submissions.\nRoute: /courses/5/grading"⟩ ∧
    (buildPageContext "/courses/5/grading"
        { emptyStore with gradingEditorTabs := [⟨"let x = 1;"⟩], gradingActiveTab := some 0 }).pageContext =
      "The user is on the Grading page — a staff view for reviewing student submissions.\nRoute: /courses/5/grading\n\nCode currently visible in the grading editor:\n```javascript\nlet x = 1;\n```" := by
  constructor
  · decide
  · decide

/-- C6 amended: on every `/courses/{id}/grading...` route with no
submission selected and no code contributed by the grading editor
workspace, the pageContext is exactly the fixed grading description
followed by the route line — no question text, answer code, grader
comments, student name, or editor code is appended. -/
theorem grading_context_minimal (pathname : String) (store : StoreSlices)
    (digits sub : List Char)
    (hp : strStartsWith pathname "/playground" = false)
    (hm : coursesMatch pathname.toList = some (digits, sub))
    (hg : strStartsWith (String.mk sub) "grading" = true)
    (hsub : store.currentSubmissionId = none)
    (hcode : optStrTruthy (getEditorCode store.gradingEditorTabs store.gradingActiveTab) = false) :
    buildPageContext pathname store =
      ⟨"grading", "The user is on the Grading page — a staff view for reviewing student submissions.\nRoute: " ++ pathname⟩ := by
  rw [buildPageContext]
  simp only [hp, Bool.false_eq_true, if_false, hm]
  rw [courseBranch]
  simp only [hg, if_true]
  rw [gradingBranch]
  simp only [gradingSubmissionParts, hsub, hcode, Bool.false_eq_true, if_false]
  simp only [joinSep, List.append_nil]
  congr 1

/-- Witness for `grading_context_minimal` on `/courses/5/grading` with the
empty store. -/
theorem grading_context_minimal_witness :
    buildPageContext "/courses/5/grading" emptyStore =
      ⟨"grading", "The user is on the Grading page — a staff view for reviewing student submissions.\nRoute: /courses/5/grading"⟩ :=
  grading_context_minimal "/courses/5/grading" emptyStore "5".toList "grading".toList
    (by decide) (by decide) (by decide) rfl (by decide)

/-- When the active editor tab exists but holds the empty string,
`getEditorCode` returns the empty string. -/
theorem getEditorCode_empty_val (tabs : List EditorTabState) (i : Nat) (tab : EditorTabState)
    (hi : tabs[i]? = some tab) (hv : tab.value = "") :
    getEditorCode tabs (some i) = some "" := by
  have hne : tabs.isEmpty = false := by
    cases tabs
    · simp at hi
    · rfl
  simp [getEditorCode, hne, hi, hv]

/-- Emptying the playground editor fields leaves the playground branch
unchanged when the editor contributes no truthy code. -/
theorem playgroundBranch_emptyCode (pathname : String) (store : StoreSlices)
    (hc : getEditorCode store.playgroundEditorTabs store.playgroundActiveTab = some "") :
    playgroundBranch pathname store =
      playgroundBranch pathname
        { store with playgroundEditorTabs := [], playgroundActiveTab := none } := by
  have hemp : ("" : String).isEmpty = true := rfl
  simp only [playgroundBranch, hc]
  simp [optStrTruthy, getEditorCode, hemp]

/-- Emptying the grading editor fields leaves the grading branch unchanged
when the editor contributes no truthy code. -/
theorem gradingBranch_emptyCode (pathname : String) (store : StoreSlices)
    (hc : getEditorCode store.gradingEditorTabs store.gradingActiveTab = some "") :
    gradingBranch pathname store =
      gradingBranch pathname
        { store with gradingEditorTabs := [], gradingActiveTab := none } := by
  have hemp : ("" : String).isEmpty = true := rfl
  simp only [gradingBranch, hc]
  simp [optStrTruthy, getEditorCode, hemp]
  rfl

/-- Emptying the assessment editor fields leaves the assessment branch
unchanged when the editor contributes no truthy code. -/
theorem assessmentBranch_emptyCode (pathname : String) (store : StoreSlices)
    (hc : getEditorCode store.assessmentEditorTabs store.assessmentActiveTab = some "") :
    assessmentBranch pathname store =
      assessmentBranch pathname
        { store with assessmentEditorTabs := [], assessmentActiveTab := none } := by
  have hemp : ("" : String).isEmpty = true := rfl
  simp only [assessmentBranch, hc]
  simp [optStrTruthy, getEditorCode, hemp]
  rfl

/-- `buildPageContext` is determined by the three state-reading branches:
if each agrees on two stores, the whole dispatch agrees. -/
theorem buildPageContext_ext (p : String) (s1 s2 : StoreSlices)
    (h1 : playgroundBranch p s1 = playgroundBranch p s2)
    (h2 : gradingBranch p s1 = gradingBranch p s2)
    (h3 : assessmentBranch p s1 = assessmentBranch p s2) :
    buildPageContext p s1 = buildPageContext p s2 := by
  rw [buildPageContext, buildPageContext]
  by_cases hp : strStartsWith p "/playground"
  · simp only [hp, if_true]
    exact h1
  · simp only [hp, Bool.false_eq_true, if_false]
    split
    next m =>
      unfold courseBranch
      split_ifs <;> first | rfl | exact h2 | exact h3
    next => rfl

/-- C10: when a workspace's active tab index points at an existing tab
whose content is the empty string, `getEditorCode` returns the empty
string and `buildPageContext` omits the editor-code section entirely —
the output equals that for an emptied editor workspace — in the
playground, grading and assessment branches alike. -/
theorem editor_code_empty_omitted (pathname : String) (store : StoreSlices) :
    (∀ i tab, store.playgroundActiveTab = some i →
      store.playgroundEditorTabs[i]? = some tab → tab.value = "" →
      getEditorCode store.playgroundEditorTabs store.playgroundActiveTab = some "" ∧
      buildPageContext pathname store =
        buildPageContext pathname
          { store with playgroundEditorTabs := [], playgroundActiveTab := none }) ∧
    (∀ i tab, store.gradingActiveTab = some i →
      store.gradingEditorTabs[i]? = some tab → tab.value = "" →
      getEditorCode store.gradingEditorTabs store.gradingActiveTab = some "" ∧
      buildPageContext pathname store =
        buildPageContext pathname
          { store with gradingEditorTabs := [], gradingActiveTab := none }) ∧
    (∀ i tab, store.assessmentActiveTab = some i →
      store.assessmentEditorTabs[i]? = some tab → tab.value = "" →
      getEditorCode store.assessmentEditorTabs store.assessmentActiveTab = some "" ∧
      buildPageContext pathname store =
        buildPageContext pathname
          { store with assessmentEditorTabs := [], assessmentActiveTab := none }) := by
  refine ⟨fun i tab hact hi hv => ?_, fun i tab hact hi hv => ?_, fun i tab hact hi hv => ?_⟩
  · have hcode : getEditorCode store.playgroundEditorTabs store.playgroundActiveTab = some "" := by
      rw [hact]
      exact getEditorCode_empty_val _ i tab hi hv
    exact ⟨hcode, buildPageContext_ext _ _ _ (playgroundBranch_emptyCode _ _ hcode) rfl rfl⟩
  · have hcode : getEditorCode store.gradingEditorTabs store.gradingActiveTab = some "" := by
      rw [hact]
      exact getEditorCode_empty_val _ i tab hi hv
    exact ⟨hcode, buildPageContext_ext _ _ _ rfl (gradingBranch_emptyCode _ _ hcode) rfl⟩
  · have hcode : getEditorCode store.assessmentEditorTabs store.assessmentActiveTab = some "" := by
      rw [hact]
      exact getEditorCode_empty_val _ i tab hi hv
    exact ⟨hcode, buildPageContext_ext _ _ _ rfl rfl (assessmentBranch_emptyCode _ _ hcode)⟩

/-- Witness for `editor_code_empty_omitted`: the playground conjunct at a
store with one active empty tab. -/
theorem editor_code_empty_omitted_witness :
    getEditorCode oneEmptyTabStore.playgroundEditorTabs oneEmptyTabStore.playgroundActiveTab =
      some "" ∧
    buildPageContext "/playground" oneEmptyTabStore =
      buildPageContext "/playground"
        { oneEmptyTabStore with playgroundEditorTabs := [], playgroundActiveTab := none } :=
  (editor_code_empty_omitted "/playground" oneEmptyTabStore).1 0 ⟨""⟩ rfl rfl rfl
